import Mathlib

/-!
Verification of the 3D-chess rules engine (8×8×8 board).

The definitions below are a shallow embedding of the TypeScript source:
`src/lib/gameLogic.ts` (board initialization and move generation) and
`src/App.tsx` (move application, promotion completion, click handling and
session state).  JavaScript numbers used as board coordinates are embedded
as `Int`; the 3-dimensional occupancy array is embedded as a total function
`Int → Int → Int → Option Piece` that returns `none` outside the board
(matching the absence of a cell in the array); the `capturedPieces` record
is embedded as two lists; the `gameStatus` string is kept as a `String`.
-/

namespace Chess3D

/-- Modelled from the spec: the board side length `SIZE` is exported by
`src/types.ts`, which is not among the provided sources; spec §3 fixes the
observed value N = 8. -/
def SIZE : Nat := 8

/-- Piece roles, the values of `Piece['type']` in `src/types.ts`
(`'P' | 'R' | 'N' | 'B' | 'Q' | 'K'`). -/
inductive PieceType where
  | P | R | N | B | Q | K
deriving DecidableEq, Repr

/-- Piece colors (`'white' | 'black'`). -/
inductive Color where
  | white | black
deriving DecidableEq, Repr

/-- A piece record: role, side, stored coordinates and the moved flag,
as in `src/types.ts` / `initializeBoardState`. -/
structure Piece where
  type : PieceType
  color : Color
  x : Int
  y : Int
  z : Int
  hasMoved : Bool
deriving DecidableEq, Repr

/-- The castle tag of a move (`'king' | 'queen'` in the source). -/
inductive CastleSide where
  | king | queen
deriving DecidableEq, Repr

/-- A move record: target coordinates, capture flag, and the optional
castle tag (absent on every move built by `calculateValidMoves`). -/
structure Move where
  x : Int
  y : Int
  z : Int
  capture : Bool
  castle : Option CastleSide := none
deriving DecidableEq, Repr

/-- The board: cell `(x, y, z)` holds at most one piece.  The JavaScript
value is `(Piece | null)[][][]`; the embedding is a total function that is
`none` outside `[0, SIZE)³`. -/
def BoardState : Type := Int → Int → Int → Option Piece

/-- Reading `boardState[x][y][z]`. -/
def pieceAt (bs : BoardState) (x y z : Int) : Option Piece := bs x y z

/-- Writing `boardState[x][y][z] = v`. -/
def setCell (bs : BoardState) (x y z : Int) (v : Option Piece) : BoardState :=
  fun a b c => if a = x ∧ b = y ∧ c = z then v else bs a b c

/-- `isWithinBounds` from `src/lib/gameLogic.ts`. -/
def isWithinBounds (x y z : Int) : Prop :=
  0 ≤ x ∧ x < (SIZE : Int) ∧ 0 ≤ y ∧ y < (SIZE : Int) ∧ 0 ≤ z ∧ z < (SIZE : Int)

instance (x y z : Int) : Decidable (isWithinBounds x y z) := by
  unfold isWithinBounds; infer_instance

/-- The `MAJOR_PIECE_PATTERN` string array of `initializeBoardState`. -/
def MAJOR_PIECE_PATTERN : List String :=
  [ "rnbrrbnr",
    "nnbqqbnn",
    "bbbqqbbb",
    "rqqqkqqr",
    "rqqqqqqr",
    "bbbqqbbb",
    "nnbqqbnn",
    "rnbrrbnr" ]

/-- The `PAWN_ROW` string of `initializeBoardState`. -/
def PAWN_ROW : String := "pppppppp"

/-- The per-layer pattern selection of `initializeBoardState`:
`z = 0` and `z = 7` take the major-piece pattern, `z = 1` and `z = 6` the
pawn rows, all other layers stay empty (`layerPattern` remains `null`). -/
def layerPattern (z : Int) : Option (List String) :=
  if z = 0 then some MAJOR_PIECE_PATTERN
  else if z = 1 then some (List.replicate SIZE PAWN_ROW)
  else if z = 6 then some (List.replicate SIZE PAWN_ROW)
  else if z = 7 then some MAJOR_PIECE_PATTERN
  else none

/-- The cast `char.toUpperCase() as Piece['type']` of `initializeBoardState`,
restricted to the lowercase letters that occur in the pattern strings. -/
def charToPieceType (c : Char) : PieceType :=
  if c = 'r' then .R
  else if c = 'n' then .N
  else if c = 'b' then .B
  else if c = 'q' then .Q
  else if c = 'k' then .K
  else .P

/-- `initializeBoardState` from `src/lib/gameLogic.ts`: cell `(x, y, z)` of
the starting board.  For an in-bounds cell the layer pattern is consulted
(`layerPattern[y]` is the row string, indexed by `x`); `isWhite` is `z < 4`;
a non-blank character yields a piece with `hasMoved = false` and stored
coordinates equal to the cell's. -/
def initializeBoardState : BoardState := fun x y z =>
  if isWithinBounds x y z then
    match layerPattern z with
    | some pat =>
        let rowString := pat.getD y.toNat ""
        let c := rowString.toList.getD x.toNat ' '
        if c = ' ' then none
        else some { type := charToPieceType c,
                    color := if z < 4 then .white else .black,
                    x := x, y := y, z := z, hasMoved := false }
    | none => none
  else none

/-! ## Move generation (`calculateValidMoves`) -/

/-- The pawn's forward direction along z: `color === 'white' ? 1 : -1`. -/
def pawnZDir (c : Color) : Int := if c = .white then 1 else -1

/-- The pawn's starting layer: `(color === 'white') ? 1 : 6`. -/
def pawnStartLayer (c : Color) : Int := if c = .white then 1 else 6

/-- The `threeDDirections` loop of the pawn branch: all `[dx, dy, zDir]`
with `dx, dy ∈ {-1, 0, 1}` and not both zero, in loop order. -/
def pawnDiagDirections (zDir : Int) : List (Int × Int × Int) :=
  ([-1, 0, 1] : List Int).flatMap fun dx =>
    ([-1, 0, 1] : List Int).filterMap fun dy =>
      if dx = 0 ∧ dy = 0 then none else some (dx, dy, zDir)

/-- The forward-step part of the pawn branch of `calculateValidMoves`:
a guarded single forward step, with a guarded double forward step from the
start layer nested inside the single-step guard. -/
def pawnForward (piece : Piece) (bs : BoardState) : List Move :=
  let zDir := pawnZDir piece.color
  let moveZ := piece.z + zDir
  if isWithinBounds piece.x piece.y moveZ ∧ pieceAt bs piece.x piece.y moveZ = none then
    let dbl : List Move :=
      if piece.z = pawnStartLayer piece.color then
        let doubleMoveZ := piece.z + zDir * 2
        if isWithinBounds piece.x piece.y doubleMoveZ ∧
            pieceAt bs piece.x piece.y doubleMoveZ = none then
          [{ x := piece.x, y := piece.y, z := doubleMoveZ, capture := false }]
        else []
      else []
    { x := piece.x, y := piece.y, z := moveZ, capture := false } :: dbl
  else []

/-- The diagonal-capture part of the pawn branch of `calculateValidMoves`. -/
def pawnDiags (piece : Piece) (bs : BoardState) : List Move :=
  (pawnDiagDirections (pawnZDir piece.color)).filterMap fun d =>
    let tx := piece.x + d.1
    let ty := piece.y + d.2.1
    let tz := piece.z + d.2.2
    if isWithinBounds tx ty tz then
      match pieceAt bs tx ty tz with
      | some q => if q.color ≠ piece.color then
                    some { x := tx, y := ty, z := tz, capture := true }
                  else none
      | none => none
    else none

/-- The pawn branch of `calculateValidMoves`: forward pushes first (in
source push order), then the 3D diagonal captures. -/
def pawnMoves (piece : Piece) (bs : BoardState) : List Move :=
  pawnForward piece bs ++ pawnDiags piece bs

/-- The 24 knight leap offsets, in source order. -/
def knightPermutations : List (Int × Int × Int) :=
  [ (2, 1, 0), (2, -1, 0), (-2, 1, 0), (-2, -1, 0),
    (1, 2, 0), (1, -2, 0), (-1, 2, 0), (-1, -2, 0),
    (2, 0, 1), (2, 0, -1), (-2, 0, 1), (-2, 0, -1),
    (1, 0, 2), (1, 0, -2), (-1, 0, 2), (-1, 0, -2),
    (0, 2, 1), (0, 2, -1), (0, -2, 1), (0, -2, -1),
    (0, 1, 2), (0, 1, -2), (0, -1, 2), (0, -1, -2) ]

/-- The knight branch of `calculateValidMoves`: each in-bounds leap target
that is empty or enemy-occupied yields a move with `capture = !!targetPiece`. -/
def knightMoves (piece : Piece) (bs : BoardState) : List Move :=
  knightPermutations.filterMap fun d =>
    let tx := piece.x + d.1
    let ty := piece.y + d.2.1
    let tz := piece.z + d.2.2
    if isWithinBounds tx ty tz then
      match pieceAt bs tx ty tz with
      | some q => if q.color ≠ piece.color then
                    some { x := tx, y := ty, z := tz, capture := true }
                  else none
      | none => some { x := tx, y := ty, z := tz, capture := false }
    else none

/-- `all3DDirections`: the 26 vectors of `{-1,0,1}³` without the zero
vector, in loop order. -/
def all3DDirections : List (Int × Int × Int) :=
  ([-1, 0, 1] : List Int).flatMap fun dx =>
    ([-1, 0, 1] : List Int).flatMap fun dy =>
      ([-1, 0, 1] : List Int).filterMap fun dz =>
        if dx = 0 ∧ dy = 0 ∧ dz = 0 then none else some (dx, dy, dz)

/-- The deduplication of `rayDirections` through a JavaScript `Set`,
keeping first occurrences in insertion order; `seen` is the set built so
far. -/
def jsDedupAux : List (Int × Int × Int) → List (Int × Int × Int) →
    List (Int × Int × Int)
  | [], _ => []
  | a :: as, seen =>
      if a ∈ seen then jsDedupAux as seen else a :: jsDedupAux as (a :: seen)

/-- `Array.from(new Set(...))`: first-occurrence deduplication. -/
def jsDedup (l : List (Int × Int × Int)) : List (Int × Int × Int) :=
  jsDedupAux l []

/-- The `rayDirections` of the slider branch: orthogonal rays
(`|dx|+|dy|+|dz| = 1`) for Rook/Queen/King, diagonal rays
(`|dx|+|dy|+|dz| > 1`) for Bishop/Queen/King, then `Set` deduplication. -/
def rayDirections (t : PieceType) : List (Int × Int × Int) :=
  let ortho := all3DDirections.filter fun d =>
    d.1.natAbs + d.2.1.natAbs + d.2.2.natAbs = 1
  let diag := all3DDirections.filter fun d =>
    d.1.natAbs + d.2.1.natAbs + d.2.2.natAbs > 1
  jsDedup ((if t = .R ∨ t = .Q ∨ t = .K then ortho else []) ++
           (if t = .B ∨ t = .Q ∨ t = .K then diag else []))

/-- `maxDistance`: 1 for the King, `SIZE` otherwise. -/
def maxDistance (t : PieceType) : Nat := if t = .K then 1 else SIZE

/-- The inner `for k` loop of the slider branch, walking one ray outward.
`fuel` is the number of remaining iterations, `k` the current step count:
stop at the boundary; on an occupied square add a capture for an enemy and
stop either way; on an empty square add a non-capture and continue. -/
def rayWalk (bs : BoardState) (c : Color) (sx sy sz dx dy dz : Int) :
    Nat → Nat → List Move
  | 0, _ => []
  | fuel + 1, k =>
    let tx := sx + dx * (k : Int)
    let ty := sy + dy * (k : Int)
    let tz := sz + dz * (k : Int)
    if isWithinBounds tx ty tz then
      match pieceAt bs tx ty tz with
      | some q =>
          if q.color ≠ c then [{ x := tx, y := ty, z := tz, capture := true }]
          else []
      | none =>
          { x := tx, y := ty, z := tz, capture := false } ::
            rayWalk bs c sx sy sz dx dy dz fuel (k + 1)
    else []

/-- The slider (Rook/Bishop/Queen/King) branch of `calculateValidMoves`. -/
def sliderMoves (piece : Piece) (bs : BoardState) : List Move :=
  (rayDirections piece.type).flatMap fun d =>
    rayWalk bs piece.color piece.x piece.y piece.z d.1 d.2.1 d.2.2
      (maxDistance piece.type) 1

/-- `calculateValidMoves` from `src/lib/gameLogic.ts`. -/
def calculateValidMoves (piece : Piece) (bs : BoardState) : List Move :=
  match piece.type with
  | .P => pawnMoves piece bs
  | .N => knightMoves piece bs
  | _ => sliderMoves piece bs

/-! ## Session state and move application (`src/App.tsx`) -/

/-- The `promotionData` record of `App`. -/
structure PromotionData where
  piece : Piece
  x : Int
  y : Int
  z : Int
deriving DecidableEq, Repr

/-- The React state held by `App`: board, turn, selection, the valid-move
list maintained by the `useEffect` hook, the two captured-piece lists, the
`gameStatus` string and the pending promotion. -/
structure GameSession where
  board : BoardState
  turn : Color
  selected : Option Piece
  validMoves : List Move
  capturedWhite : List Piece
  capturedBlack : List Piece
  gameStatus : String
  promotionData : Option PromotionData

/-- `color.toUpperCase() + ' WINS!'`. -/
def winString (c : Color) : String :=
  if c = .white then "WHITE WINS!" else "BLACK WINS!"

/-- `t === 'white' ? 'black' : 'white'`. -/
def oppColor (c : Color) : Color := if c = .white then .black else .white

/-- The far rank triggering promotion: `color === 'white' ? 7 : 0`. -/
def promotionRank (c : Color) : Int := if c = .white then 7 else 0

/-- `executeMove` from `src/App.tsx`.  A pawn arriving at its promotion
rank only records `promotionData` and returns.  Otherwise the destination
occupant (if any) sets the win status when it is a King and is appended to
the mover's opponent's captured list; the origin is cleared; under a castle
tag the king is written to the target and the edge rook (x = 7 for
king-side, x = 0 for queen-side, read after the king was written) is
relocated next to the king; otherwise the moved piece is written to the
target.  The turn flips and the selection clears (the `useEffect` hook then
empties `validMoves`). -/
def executeMove (s : GameSession) (piece : Piece) (targetX targetY targetZ : Int)
    (move : Move) : GameSession :=
  if piece.type = .P ∧ targetZ = promotionRank piece.color then
    { s with promotionData := some ⟨piece, targetX, targetY, targetZ⟩ }
  else
    let targetPiece := pieceAt s.board targetX targetY targetZ
    let gameStatus :=
      match targetPiece with
      | some q => if q.type = .K then winString piece.color else s.gameStatus
      | none => s.gameStatus
    let capturedWhite :=
      match targetPiece with
      | some q => if piece.color = .white then s.capturedWhite
                  else s.capturedWhite ++ [q]
      | none => s.capturedWhite
    let capturedBlack :=
      match targetPiece with
      | some q => if piece.color = .white then s.capturedBlack ++ [q]
                  else s.capturedBlack
      | none => s.capturedBlack
    let b1 := setCell s.board piece.x piece.y piece.z none
    let b2 :=
      match move.castle with
      | some side =>
        let movedKing : Piece :=
          { piece with x := targetX, y := targetY, z := targetZ, hasMoved := true }
        let bk := setCell b1 targetX targetY targetZ (some movedKing)
        match side with
        | .king =>
          match pieceAt bk 7 targetY targetZ with
          | some rook =>
              setCell (setCell bk 7 targetY targetZ none)
                (targetX - 1) targetY targetZ
                (some { rook with x := targetX - 1, hasMoved := true })
          | none => bk
        | .queen =>
          match pieceAt bk 0 targetY targetZ with
          | some rook =>
              setCell (setCell bk 0 targetY targetZ none)
                (targetX + 1) targetY targetZ
                (some { rook with x := targetX + 1, hasMoved := true })
          | none => bk
      | none =>
        setCell b1 targetX targetY targetZ
          (some { piece with x := targetX, y := targetY, z := targetZ, hasMoved := true })
    { s with board := b2, turn := oppColor s.turn, selected := none,
             validMoves := [], gameStatus := gameStatus,
             capturedWhite := capturedWhite, capturedBlack := capturedBlack }

/-- Selecting a piece: `setSelectedPiece(piece)` followed by the
`useEffect` hook recomputing `validMoves` from the current board. -/
def selectPiece (s : GameSession) (p : Piece) : GameSession :=
  { s with selected := some p, validMoves := calculateValidMoves p s.board }

/-- Clearing the selection: `setSelectedPiece(null)` followed by the
`useEffect` hook emptying `validMoves`. -/
def clearSelection (s : GameSession) : GameSession :=
  { s with selected := none, validMoves := [] }

/-- `handleSquareClick` from `src/App.tsx`: rejected outright when the
game is not active or a promotion is pending; with a selection, a click on
a valid-move target executes that move, otherwise the click re-selects an
own piece or clears the selection; without a selection, a click selects an
own piece. -/
def handleSquareClick (s : GameSession) (x y z : Int) : GameSession :=
  if s.gameStatus ≠ "active" ∨ s.promotionData.isSome then s
  else
    let clickedPiece := pieceAt s.board x y z
    match s.selected with
    | some sel =>
      match s.validMoves.find? (fun m => m.x = x ∧ m.y = y ∧ m.z = z) with
      | some move => executeMove s sel x y z move
      | none =>
        match clickedPiece with
        | some p => if p.color = s.turn then selectPiece s p else clearSelection s
        | none => clearSelection s
    | none =>
      match clickedPiece with
      | some p => if p.color = s.turn then selectPiece s p else s
      | none => s

/-- `handlePromotion` from `src/App.tsx`: with no pending promotion it
returns; otherwise the pawn's origin is cleared, any occupant of the
destination sets the win status when it is a King and is appended to the
opponent's captured list, and a new piece of the chosen role is written to
the destination with `hasMoved = true`; the turn flips and the selection
and pending promotion clear.  No validation of the chosen role occurs. -/
def handlePromotion (s : GameSession) (promotedTo : PieceType) : GameSession :=
  match s.promotionData with
  | none => s
  | some pd =>
    let b1 := setCell s.board pd.piece.x pd.piece.y pd.piece.z none
    let targetPiece := pieceAt b1 pd.x pd.y pd.z
    let gameStatus :=
      match targetPiece with
      | some q => if q.type = .K then winString pd.piece.color else s.gameStatus
      | none => s.gameStatus
    let capturedWhite :=
      match targetPiece with
      | some q => if pd.piece.color = .white then s.capturedWhite
                  else s.capturedWhite ++ [q]
      | none => s.capturedWhite
    let capturedBlack :=
      match targetPiece with
      | some q => if pd.piece.color = .white then s.capturedBlack ++ [q]
                  else s.capturedBlack
      | none => s.capturedBlack
    let b2 := setCell b1 pd.x pd.y pd.z
      (some { type := promotedTo, color := pd.piece.color,
              x := pd.x, y := pd.y, z := pd.z, hasMoved := true })
    { s with board := b2, turn := oppColor s.turn, selected := none,
             validMoves := [], gameStatus := gameStatus,
             capturedWhite := capturedWhite, capturedBlack := capturedBlack,
             promotionData := none }

/-- The initial React state of `App`. -/
def initialSession : GameSession :=
  { board := initializeBoardState, turn := .white, selected := none,
    validMoves := [], capturedWhite := [], capturedBlack := [],
    gameStatus := "active", promotionData := none }

/-- The sessions reachable from the initial state through the two state
transitions the UI exposes: square clicks (at in-bounds coordinates, as
issued by the layer canvases) and promotion completions. -/
inductive Reachable : GameSession → Prop where
  | init : Reachable initialSession
  | click {s : GameSession} (x y z : Int) :
      isWithinBounds x y z → Reachable s → Reachable (handleSquareClick s x y z)
  | promote {s : GameSession} (role : PieceType) :
      Reachable s → Reachable (handlePromotion s role)

/-! ## Helper lemmas: pawn move generation -/

theorem pawnZDir_ne_zero (c : Color) : pawnZDir c ≠ 0 := by
  cases c <;> simp [pawnZDir]

theorem pawnDiagDirections_eq (zDir : Int) :
    pawnDiagDirections zDir =
      [(-1, -1, zDir), (-1, 0, zDir), (-1, 1, zDir), (0, -1, zDir),
       (0, 1, zDir), (1, -1, zDir), (1, 0, zDir), (1, 1, zDir)] := rfl

/-- Membership in the pawn's diagonal-capture list, characterized. -/
theorem mem_pawnDiags {piece : Piece} {bs : BoardState} {m : Move} :
    m ∈ pawnDiags piece bs ↔
      ∃ dx dy : Int,
        (dx, dy, pawnZDir piece.color) ∈ pawnDiagDirections (pawnZDir piece.color) ∧
        isWithinBounds (piece.x + dx) (piece.y + dy) (piece.z + pawnZDir piece.color) ∧
        (∃ q, pieceAt bs (piece.x + dx) (piece.y + dy) (piece.z + pawnZDir piece.color) = some q ∧
          q.color ≠ piece.color) ∧
        m = { x := piece.x + dx, y := piece.y + dy,
              z := piece.z + pawnZDir piece.color, capture := true } := by
  unfold pawnDiags
  rw [List.mem_filterMap]
  constructor
  · rintro ⟨⟨dx, dy, dz⟩, hd, hf⟩
    have h3 : dz = pawnZDir piece.color := by
      rw [pawnDiagDirections_eq] at hd
      simp only [List.mem_cons, List.not_mem_nil, or_false, Prod.mk.injEq] at hd
      rcases hd with ⟨-, -, h⟩ | ⟨-, -, h⟩ | ⟨-, -, h⟩ | ⟨-, -, h⟩ |
        ⟨-, -, h⟩ | ⟨-, -, h⟩ | ⟨-, -, h⟩ | ⟨-, -, h⟩ <;> exact h
    subst h3
    refine ⟨dx, dy, hd, ?_⟩
    dsimp only at hf
    by_cases hb : isWithinBounds (piece.x + dx) (piece.y + dy)
        (piece.z + pawnZDir piece.color)
    · rw [if_pos hb] at hf
      cases hq : pieceAt bs (piece.x + dx) (piece.y + dy)
          (piece.z + pawnZDir piece.color) with
      | none => rw [hq] at hf; exact absurd hf (by simp)
      | some q =>
        rw [hq] at hf
        dsimp only at hf
        by_cases hc : q.color ≠ piece.color
        · rw [if_pos hc] at hf
          exact ⟨hb, ⟨q, rfl, hc⟩, (Option.some_inj.mp hf).symm⟩
        · rw [if_neg hc] at hf; exact absurd hf (by simp)
    · rw [if_neg hb] at hf; exact absurd hf (by simp)
  · rintro ⟨dx, dy, hmem, hb, ⟨q, hq, hc⟩, rfl⟩
    refine ⟨(dx, dy, pawnZDir piece.color), hmem, ?_⟩
    dsimp only
    rw [if_pos hb, hq]
    dsimp only
    rw [if_pos hc]

/-- Every generated pawn diagonal move is flagged as a capture. -/
theorem pawnDiags_capture {piece : Piece} {bs : BoardState} {m : Move} :
    m ∈ pawnDiags piece bs → m.capture = true := by
  intro h
  rcases mem_pawnDiags.mp h with ⟨dx, dy, -, -, -, rfl⟩
  rfl

/-- Every generated pawn forward move is flagged as a non-capture. -/
theorem pawnForward_capture {piece : Piece} {bs : BoardState} {m : Move} :
    m ∈ pawnForward piece bs → m.capture = false := by
  intro h
  unfold pawnForward at h
  dsimp only at h
  by_cases h1 : isWithinBounds piece.x piece.y (piece.z + pawnZDir piece.color) ∧
      pieceAt bs piece.x piece.y (piece.z + pawnZDir piece.color) = none
  · rw [if_pos h1] at h
    rcases List.mem_cons.mp h with rfl | h
    · rfl
    · by_cases h2 : piece.z = pawnStartLayer piece.color
      · rw [if_pos h2] at h
        by_cases h3 : isWithinBounds piece.x piece.y
            (piece.z + pawnZDir piece.color * 2) ∧
            pieceAt bs piece.x piece.y (piece.z + pawnZDir piece.color * 2) = none
        · rw [if_pos h3] at h
          rcases List.mem_singleton.mp h with rfl
          rfl
        · rw [if_neg h3] at h; exact absurd h (List.not_mem_nil m)
      · rw [if_neg h2] at h; exact absurd h (List.not_mem_nil m)
  · rw [if_neg h1] at h
    exact absurd h (List.not_mem_nil m)

/-! ## The coherence invariant and concrete witness data -/

/-- Coordinate coherence: every piece's stored coordinates equal the
coordinates of the cell it occupies. -/
def BoardCoherent (bs : BoardState) : Prop :=
  ∀ x y z p, pieceAt bs x y z = some p → p.x = x ∧ p.y = y ∧ p.z = z

/-- The concrete board of the C1 witness and spec §8 scenario: a lone
black pawn at (3,3,6) in the way of a white rook at (3,3,3). -/
def witnessRookBoard : BoardState := fun x y z =>
  if x = 3 ∧ y = 3 ∧ z = 6 then some ⟨.P, .black, 3, 3, 6, false⟩ else none

/-- The concrete board of the C5 witness: a white rook at (0,0,0) and the
black king at (0,0,4). -/
def witnessKingBoard : BoardState := fun x y z =>
  if x = 0 ∧ y = 0 ∧ z = 0 then some ⟨.R, .white, 0, 0, 0, false⟩
  else if x = 0 ∧ y = 0 ∧ z = 4 then some ⟨.K, .black, 0, 0, 4, false⟩
  else none

/-- The session of the C5 witness before the king capture. -/
def witnessKingSession : GameSession :=
  { board := witnessKingBoard, turn := .white, selected := none,
    validMoves := [], capturedWhite := [], capturedBlack := [],
    gameStatus := "active", promotionData := none }

/-- The session of the C6/C7 witnesses: a white pawn at (0,0,6) one step
from the far rank. -/
def witnessPawnSession : GameSession :=
  { board := fun x y z => if x = 0 ∧ y = 0 ∧ z = 6
      then some ⟨.P, .white, 0, 0, 6, false⟩ else none,
    turn := .white, selected := none, validMoves := [],
    capturedWhite := [], capturedBlack := [], gameStatus := "active",
    promotionData := none }

/-- The C7 witness session: the pawn session with the promotion to
(0,0,7) already pending. -/
def witnessPromoSession : GameSession :=
  { witnessPawnSession with
    promotionData := some ⟨⟨.P, .white, 0, 0, 6, false⟩, 0, 0, 7⟩ }

/-! ## Helper lemmas: knight move generation -/

/-- Every generated knight move is in bounds and castle-free. -/
theorem knightMoves_shape {piece : Piece} {bs : BoardState} {m : Move} :
    m ∈ knightMoves piece bs → isWithinBounds m.x m.y m.z ∧ m.castle = none := by
  intro h
  unfold knightMoves at h
  rcases List.mem_filterMap.mp h with ⟨d, -, hf⟩
  dsimp only at hf
  by_cases hb : isWithinBounds (piece.x + d.1) (piece.y + d.2.1) (piece.z + d.2.2)
  · rw [if_pos hb] at hf
    cases hq : pieceAt bs (piece.x + d.1) (piece.y + d.2.1) (piece.z + d.2.2) with
    | some q =>
      rw [hq] at hf
      dsimp only at hf
      by_cases hc : q.color ≠ piece.color
      · rw [if_pos hc] at hf
        rw [← Option.some_inj.mp hf]
        exact ⟨hb, rfl⟩
      · rw [if_neg hc] at hf
        exact absurd hf (by simp)
    | none =>
      rw [hq] at hf
      rw [← Option.some_inj.mp hf]
      exact ⟨hb, rfl⟩
  · rw [if_neg hb] at hf
    exact absurd hf (by simp)

/-- Every generated pawn forward move is in bounds. -/
theorem pawnForward_bounds {piece : Piece} {bs : BoardState} {m : Move} :
    m ∈ pawnForward piece bs → isWithinBounds m.x m.y m.z := by
  intro h
  unfold pawnForward at h
  dsimp only at h
  by_cases h1 : isWithinBounds piece.x piece.y (piece.z + pawnZDir piece.color) ∧
      pieceAt bs piece.x piece.y (piece.z + pawnZDir piece.color) = none
  · rw [if_pos h1] at h
    rcases List.mem_cons.mp h with rfl | h
    · exact h1.1
    · by_cases h2 : piece.z = pawnStartLayer piece.color
      · rw [if_pos h2] at h
        by_cases h3 : isWithinBounds piece.x piece.y
            (piece.z + pawnZDir piece.color * 2) ∧
            pieceAt bs piece.x piece.y (piece.z + pawnZDir piece.color * 2) = none
        · rw [if_pos h3] at h
          rcases List.mem_singleton.mp h with rfl
          exact h3.1
        · rw [if_neg h3] at h; exact absurd h (List.not_mem_nil m)
      · rw [if_neg h2] at h; exact absurd h (List.not_mem_nil m)
  · rw [if_neg h1] at h
    exact absurd h (List.not_mem_nil m)

/-- Every generated pawn forward move is castle-free. -/
theorem pawnForward_castle {piece : Piece} {bs : BoardState} {m : Move} :
    m ∈ pawnForward piece bs → m.castle = none := by
  intro h
  unfold pawnForward at h
  dsimp only at h
  by_cases h1 : isWithinBounds piece.x piece.y (piece.z + pawnZDir piece.color) ∧
      pieceAt bs piece.x piece.y (piece.z + pawnZDir piece.color) = none
  · rw [if_pos h1] at h
    rcases List.mem_cons.mp h with rfl | h
    · rfl
    · by_cases h2 : piece.z = pawnStartLayer piece.color
      · rw [if_pos h2] at h
        by_cases h3 : isWithinBounds piece.x piece.y
            (piece.z + pawnZDir piece.color * 2) ∧
            pieceAt bs piece.x piece.y (piece.z + pawnZDir piece.color * 2) = none
        · rw [if_pos h3] at h
          rcases List.mem_singleton.mp h with rfl
          rfl
        · rw [if_neg h3] at h; exact absurd h (List.not_mem_nil m)
      · rw [if_neg h2] at h; exact absurd h (List.not_mem_nil m)
  · rw [if_neg h1] at h
    exact absurd h (List.not_mem_nil m)

/-! ## Helper lemmas: slider move generation -/

theorem move_eq_mk {m : Move} {a b c : Int} {cap : Bool} {cas : Option CastleSide}
    (hx : m.x = a) (hy : m.y = b) (hz : m.z = c)
    (hc : m.capture = cap) (hcs : m.castle = cas) :
    m = { x := a, y := b, z := c, capture := cap, castle := cas } := by
  cases m; simp_all

/-- Membership in one ray walk, characterized: a move at step `k` is
produced iff the walk reached `k` (all earlier steps were in-bounds, empty
squares), the step-`k` cell is in bounds, and the move's capture flag
matches the cell's occupancy (empty, or an opposing piece). -/
theorem rayWalk_mem_iff (bs : BoardState) (c : Color) (sx sy sz dx dy dz : Int)
    (fuel k₀ : Nat) (m : Move) :
    m ∈ rayWalk bs c sx sy sz dx dy dz fuel k₀ ↔
      ∃ k : Nat, k₀ ≤ k ∧ k < k₀ + fuel ∧
        m.x = sx + dx * (k : Int) ∧ m.y = sy + dy * (k : Int) ∧
        m.z = sz + dz * (k : Int) ∧ m.castle = none ∧
        isWithinBounds m.x m.y m.z ∧
        (∀ j : Nat, k₀ ≤ j → j < k →
          isWithinBounds (sx + dx * (j : Int)) (sy + dy * (j : Int)) (sz + dz * (j : Int)) ∧
          pieceAt bs (sx + dx * (j : Int)) (sy + dy * (j : Int)) (sz + dz * (j : Int)) = none) ∧
        ((pieceAt bs m.x m.y m.z = none ∧ m.capture = false) ∨
         (∃ q, pieceAt bs m.x m.y m.z = some q ∧ q.color ≠ c ∧ m.capture = true)) := by
  induction fuel generalizing k₀ with
  | zero =>
    simp only [rayWalk, List.not_mem_nil, false_iff]
    rintro ⟨k, hk1, hk2, -⟩
    omega
  | succ fuel ih =>
    simp only [rayWalk]
    by_cases hb : isWithinBounds (sx + dx * (k₀ : Int)) (sy + dy * (k₀ : Int))
        (sz + dz * (k₀ : Int))
    · rw [if_pos hb]
      cases hq : pieceAt bs (sx + dx * (k₀ : Int)) (sy + dy * (k₀ : Int))
          (sz + dz * (k₀ : Int)) with
      | some q =>
        dsimp only
        by_cases hc : q.color ≠ c
        · rw [if_pos hc]
          simp only [List.mem_singleton]
          constructor
          · rintro rfl
            refine ⟨k₀, le_refl _, by omega, rfl, rfl, rfl, rfl, hb, ?_,
              Or.inr ⟨q, hq, hc, rfl⟩⟩
            intro j hj1 hj2
            omega
          · rintro ⟨k, hk1, hk2, hx, hy, hz, hcast, hbm, hint, hlast⟩
            rcases Nat.eq_or_lt_of_le hk1 with heq | hlt
            · subst heq
              rcases hlast with ⟨hnone, hcapf⟩ | ⟨q', hq', hcq', hcapt⟩
              · rw [hx, hy, hz] at hnone
                simp [hq] at hnone
              · rw [hx, hy, hz] at hq'
                rw [hq] at hq'
                exact move_eq_mk hx hy hz hcapt hcast
            · rcases hint k₀ (le_refl _) hlt with ⟨-, hnone⟩
              simp [hq] at hnone
        · rw [if_neg hc]
          simp only [List.not_mem_nil, false_iff]
          rintro ⟨k, hk1, hk2, hx, hy, hz, hcast, hbm, hint, hlast⟩

          rcases Nat.eq_or_lt_of_le hk1 with heq | hlt
          · subst heq
            rcases hlast with ⟨hnone, -⟩ | ⟨q', hq', hcq', -⟩
            · rw [hx, hy, hz] at hnone
              simp [hq] at hnone
            · rw [hx, hy, hz] at hq'
              rw [hq] at hq'
              rw [Option.some_inj.mp hq'] at hc
              exact hc hcq'
          · rcases hint k₀ (le_refl _) hlt with ⟨-, hnone⟩
            simp [hq] at hnone
      | none =>
        dsimp only
        rw [List.mem_cons, ih (k₀ + 1)]
        constructor
        · rintro (rfl | ⟨k, hk1, hk2, hx, hy, hz, hcast, hbm, hint, hlast⟩)
          · refine ⟨k₀, le_refl _, by omega, rfl, rfl, rfl, rfl, hb, ?_,
              Or.inl ⟨hq, rfl⟩⟩
            intro j hj1 hj2
            omega
          · refine ⟨k, by omega, by omega, hx, hy, hz, hcast, hbm, ?_, hlast⟩
            intro j hj1 hj2
            rcases Nat.eq_or_lt_of_le hj1 with heq | hlt
            · subst heq
              exact ⟨hb, hq⟩
            · exact hint j hlt hj2
        · rintro ⟨k, hk1, hk2, hx, hy, hz, hcast, hbm, hint, hlast⟩
          rcases Nat.eq_or_lt_of_le hk1 with heq | hlt
          · subst heq
            rcases hlast with ⟨hnone, hcapf⟩ | ⟨q', hq', -, -⟩
            · exact Or.inl (move_eq_mk hx hy hz hcapf hcast)
            · rw [hx, hy, hz] at hq'
              simp [hq] at hq'
          · refine Or.inr ⟨k, by omega, by omega, hx, hy, hz, hcast, hbm, ?_, hlast⟩
            intro j hj1 hj2
            exact hint j (by omega) hj2
    · rw [if_neg hb]
      simp only [List.not_mem_nil, false_iff]
      rintro ⟨k, hk1, hk2, hx, hy, hz, hcast, hbm, hint, hlast⟩
      rcases Nat.eq_or_lt_of_le hk1 with heq | hlt
      · subst heq
        rw [hx, hy, hz] at hbm
        exact hb hbm
      · rcases hint k₀ (le_refl _) hlt with ⟨hbj, -⟩
        exact hb hbj

/-- Membership in the full slider move list, characterized over the
piece's ray-direction set. -/
theorem sliderMoves_mem_iff (piece : Piece) (bs : BoardState) (m : Move) :
    m ∈ sliderMoves piece bs ↔
      ∃ d ∈ rayDirections piece.type, ∃ k : Nat,
        1 ≤ k ∧ k ≤ maxDistance piece.type ∧
        m.x = piece.x + d.1 * (k : Int) ∧ m.y = piece.y + d.2.1 * (k : Int) ∧
        m.z = piece.z + d.2.2 * (k : Int) ∧ m.castle = none ∧
        isWithinBounds m.x m.y m.z ∧
        (∀ j : Nat, 1 ≤ j → j < k →
          isWithinBounds (piece.x + d.1 * (j : Int)) (piece.y + d.2.1 * (j : Int))
            (piece.z + d.2.2 * (j : Int)) ∧
          pieceAt bs (piece.x + d.1 * (j : Int)) (piece.y + d.2.1 * (j : Int))
            (piece.z + d.2.2 * (j : Int)) = none) ∧
        ((pieceAt bs m.x m.y m.z = none ∧ m.capture = false) ∨
         (∃ q, pieceAt bs m.x m.y m.z = some q ∧ q.color ≠ piece.color ∧
           m.capture = true)) := by
  unfold sliderMoves
  rw [List.mem_flatMap]
  constructor
  · rintro ⟨d, hd, hm⟩
    rcases (rayWalk_mem_iff bs piece.color piece.x piece.y piece.z
        d.1 d.2.1 d.2.2 (maxDistance piece.type) 1 m).mp hm with
      ⟨k, hk1, hk2, rest⟩
    exact ⟨d, hd, k, hk1, by omega, rest⟩
  · rintro ⟨d, hd, k, hk1, hk2, rest⟩
    refine ⟨d, hd, (rayWalk_mem_iff bs piece.color piece.x piece.y piece.z
        d.1 d.2.1 d.2.2 (maxDistance piece.type) 1 m).mpr ⟨k, hk1, by omega, rest⟩⟩

/-! ## Helper lemmas: move application -/

theorem pieceAt_setCell_same (bs : BoardState) (x y z : Int) (v : Option Piece) :
    pieceAt (setCell bs x y z v) x y z = v := by
  simp [pieceAt, setCell]

/-- With no castle tag and no promotion trigger, `executeMove` rewrites
exactly the origin (cleared) and the target (the moved piece). -/
theorem executeMove_noncastle_board (s : GameSession) (piece : Piece)
    (tX tY tZ : Int) (mv : Move) (hcast : mv.castle = none)
    (hpromo : ¬(piece.type = .P ∧ tZ = promotionRank piece.color)) :
    (executeMove s piece tX tY tZ mv).board =
      setCell (setCell s.board piece.x piece.y piece.z none) tX tY tZ
        (some { piece with x := tX, y := tY, z := tZ, hasMoved := true }) := by
  unfold executeMove
  rw [if_neg hpromo]
  dsimp only
  rw [hcast]

/-- With no promotion trigger, capturing a King sets the win status. -/
theorem executeMove_kingCapture_status (s : GameSession) (piece : Piece)
    (tX tY tZ : Int) (mv : Move) (q : Piece)
    (hpromo : ¬(piece.type = .P ∧ tZ = promotionRank piece.color))
    (hq : pieceAt s.board tX tY tZ = some q) (hK : q.type = .K) :
    (executeMove s piece tX tY tZ mv).gameStatus = winString piece.color := by
  unfold executeMove
  rw [if_neg hpromo]
  dsimp only
  rw [hq]
  dsimp only
  rw [if_pos hK]

theorem winString_ne_active (c : Color) : winString c ≠ "active" := by
  cases c <;> simp [winString]

/-! ## Theorems -/

/-- C4: `initializeBoardState` — a plain function of no arguments, hence
deterministic and idempotent — produces a board where layers `z = 0` and
`z = 7` hold the fixed major-piece pattern (row `y`, column `x` of
`MAJOR_PIECE_PATTERN`), layers `z = 1` and `z = 6` hold full pawn ranks,
layers `z = 2`–`5` are entirely empty, every piece on layers 0–1 is White
and every piece on layers 6–7 is Black (color `z < 4`), and every placed
piece has `hasMoved = false` and stored coordinates equal to its cell. -/
theorem spec_C4 (x y z : Fin 8) :
    (2 ≤ z.val → z.val ≤ 5 →
      pieceAt initializeBoardState (x.val : Int) (y.val : Int) (z.val : Int) = none) ∧
    (z.val = 1 ∨ z.val = 6 →
      pieceAt initializeBoardState (x.val : Int) (y.val : Int) (z.val : Int) =
        some { type := .P, color := if z.val < 4 then .white else .black,
               x := (x.val : Int), y := (y.val : Int), z := (z.val : Int),
               hasMoved := false }) ∧
    (z.val = 0 ∨ z.val = 7 →
      pieceAt initializeBoardState (x.val : Int) (y.val : Int) (z.val : Int) =
        some { type := charToPieceType
                 ((MAJOR_PIECE_PATTERN.getD y.val "").toList.getD x.val ' '),
               color := if z.val < 4 then .white else .black,
               x := (x.val : Int), y := (y.val : Int), z := (z.val : Int),
               hasMoved := false }) := by
  revert x y z
  decide

/-- Witness for C4 at concrete cells: an empty mid-board cell, a white
pawn, and the white king of layer 0. -/
theorem spec_C4_witness :
    pieceAt initializeBoardState 3 3 3 = none ∧
    pieceAt initializeBoardState 0 0 1 = some ⟨.P, .white, 0, 0, 1, false⟩ ∧
    pieceAt initializeBoardState 4 3 0 = some ⟨.K, .white, 4, 3, 0, false⟩ :=
  ⟨(spec_C4 3 3 3).1 (by decide) (by decide),
   (spec_C4 0 0 1).2.1 (Or.inl (by decide)),
   (spec_C4 4 3 0).2.2 (Or.inl (by decide))⟩

/-- C2: for every pawn and every board, the single forward step along z
(`dz = pawnZDir`, +1 for White and −1 for Black) is generated iff its
target is in bounds and empty, and the double forward step is generated iff
the pawn stands on its side's start layer (`z = 1` for White, `z = 6` for
Black) and both the intermediate and the final square are in bounds and
empty.  Both move records carry `capture = false`. -/
theorem spec_C2 (piece : Piece) (bs : BoardState) (hP : piece.type = .P) :
    ({ x := piece.x, y := piece.y, z := piece.z + pawnZDir piece.color,
       capture := false : Move } ∈ calculateValidMoves piece bs ↔
      isWithinBounds piece.x piece.y (piece.z + pawnZDir piece.color) ∧
      pieceAt bs piece.x piece.y (piece.z + pawnZDir piece.color) = none) ∧
    ({ x := piece.x, y := piece.y, z := piece.z + pawnZDir piece.color * 2,
       capture := false : Move } ∈ calculateValidMoves piece bs ↔
      piece.z = pawnStartLayer piece.color ∧
      isWithinBounds piece.x piece.y (piece.z + pawnZDir piece.color) ∧
      pieceAt bs piece.x piece.y (piece.z + pawnZDir piece.color) = none ∧
      isWithinBounds piece.x piece.y (piece.z + pawnZDir piece.color * 2) ∧
      pieceAt bs piece.x piece.y (piece.z + pawnZDir piece.color * 2) = none) := by
  have hcalc : calculateValidMoves piece bs = pawnMoves piece bs := by
    unfold calculateValidMoves; rw [hP]
  have hzne : piece.z + pawnZDir piece.color ≠ piece.z + pawnZDir piece.color * 2 := by
    have := pawnZDir_ne_zero piece.color
    omega
  rw [hcalc]
  unfold pawnMoves
  constructor
  · constructor
    · intro h
      rcases List.mem_append.mp h with h | h
      · unfold pawnForward at h
        dsimp only at h
        by_cases h1 : isWithinBounds piece.x piece.y (piece.z + pawnZDir piece.color) ∧
            pieceAt bs piece.x piece.y (piece.z + pawnZDir piece.color) = none
        · exact h1
        · rw [if_neg h1] at h
          exact absurd h (List.not_mem_nil _)
      · have := pawnDiags_capture h
        simp at this
    · intro h1
      refine List.mem_append.mpr (Or.inl ?_)
      unfold pawnForward
      dsimp only
      rw [if_pos h1]
      exact List.mem_cons_self _ _
  · constructor
    · intro h
      rcases List.mem_append.mp h with h | h
      · unfold pawnForward at h
        dsimp only at h
        by_cases h1 : isWithinBounds piece.x piece.y (piece.z + pawnZDir piece.color) ∧
            pieceAt bs piece.x piece.y (piece.z + pawnZDir piece.color) = none
        · rw [if_pos h1] at h
          rcases List.mem_cons.mp h with heq | h
          · exact absurd (congrArg Move.z heq) (Ne.symm hzne)
          · by_cases h2 : piece.z = pawnStartLayer piece.color
            · rw [if_pos h2] at h
              by_cases h3 : isWithinBounds piece.x piece.y
                  (piece.z + pawnZDir piece.color * 2) ∧
                  pieceAt bs piece.x piece.y (piece.z + pawnZDir piece.color * 2) = none
              · exact ⟨h2, h1.1, h1.2, h3.1, h3.2⟩
              · rw [if_neg h3] at h
                exact absurd h (List.not_mem_nil _)
            · rw [if_neg h2] at h
              exact absurd h (List.not_mem_nil _)
        · rw [if_neg h1] at h
          exact absurd h (List.not_mem_nil _)
      · have := pawnDiags_capture h
        simp at this
    · rintro ⟨h2, hb1, he1, hb2, he2⟩
      refine List.mem_append.mpr (Or.inl ?_)
      unfold pawnForward
      dsimp only
      rw [if_pos ⟨hb1, he1⟩, if_pos h2, if_pos ⟨hb2, he2⟩]
      exact List.mem_cons_of_mem _ (List.mem_singleton.mpr rfl)

/-- Witness for C2: the white pawn at (0,1,1) of the initial board has
both the single step to (0,1,2) and the double step to (0,1,3). -/
theorem spec_C2_witness :
    ({ x := 0, y := 1, z := 2, capture := false : Move } ∈
      calculateValidMoves ⟨.P, .white, 0, 1, 1, false⟩ initializeBoardState) ∧
    ({ x := 0, y := 1, z := 3, capture := false : Move } ∈
      calculateValidMoves ⟨.P, .white, 0, 1, 1, false⟩ initializeBoardState) :=
  ⟨(spec_C2 ⟨.P, .white, 0, 1, 1, false⟩ initializeBoardState rfl).1.mpr (by decide),
   (spec_C2 ⟨.P, .white, 0, 1, 1, false⟩ initializeBoardState rfl).2.mpr (by decide)⟩

/-- C3: for every pawn and every board, the diagonal move with offset
`(dx, dy, pawnZDir)` — `(dx, dy)` any of the 8 nonzero combinations over
`{-1, 0, 1}²` — is generated iff the target is in bounds and occupied by an
opposing piece; it carries `capture = true`, and every capture-flagged pawn
move targets an opposing piece (so no diagonal move to an empty square is
ever generated). -/
theorem spec_C3 (piece : Piece) (bs : BoardState) (hP : piece.type = .P)
    (dx dy : Int) (hdx : dx = -1 ∨ dx = 0 ∨ dx = 1)
    (hdy : dy = -1 ∨ dy = 0 ∨ dy = 1) (hne : ¬(dx = 0 ∧ dy = 0)) :
    ({ x := piece.x + dx, y := piece.y + dy,
       z := piece.z + pawnZDir piece.color, capture := true : Move } ∈
        calculateValidMoves piece bs ↔
      isWithinBounds (piece.x + dx) (piece.y + dy) (piece.z + pawnZDir piece.color) ∧
      ∃ q, pieceAt bs (piece.x + dx) (piece.y + dy) (piece.z + pawnZDir piece.color) =
        some q ∧ q.color ≠ piece.color) ∧
    (∀ m ∈ calculateValidMoves piece bs, m.capture = true →
      ∃ q, pieceAt bs m.x m.y m.z = some q ∧ q.color ≠ piece.color) := by
  have hcalc : calculateValidMoves piece bs = pawnMoves piece bs := by
    unfold calculateValidMoves; rw [hP]
  rw [hcalc]
  unfold pawnMoves
  constructor
  · constructor
    · intro h
      rcases List.mem_append.mp h with h | h
      · have := pawnForward_capture h
        simp at this
      · rcases mem_pawnDiags.mp h with ⟨dx', dy', -, hb, hq, heq⟩
        have hx : dx' = dx := by
          have := congrArg Move.x heq
          simp only at this
          omega
        have hy : dy' = dy := by
          have := congrArg Move.y heq
          simp only at this
          omega
        rw [hx, hy] at hb hq
        exact ⟨hb, hq⟩
    · rintro ⟨hb, hq⟩
      refine List.mem_append.mpr (Or.inr (mem_pawnDiags.mpr ⟨dx, dy, ?_, hb, hq, rfl⟩))
      rw [pawnDiagDirections_eq]
      rcases hdx with rfl | rfl | rfl <;> rcases hdy with rfl | rfl | rfl <;>
        simp_all
  · intro m hm hcap
    rcases List.mem_append.mp hm with h | h
    · rw [pawnForward_capture h] at hcap
      exact absurd hcap (by simp)
    · rcases mem_pawnDiags.mp h with ⟨dx', dy', -, -, hq, heq⟩
      rw [heq]
      exact hq

/-- Witness for C3: a white pawn at (3,3,2) facing a black knight at
(4,4,3) has the diagonal capture to (4,4,3), and that capture-flagged move
indeed targets an opposing piece. -/
theorem spec_C3_witness :
    ({ x := 4, y := 4, z := 3, capture := true : Move } ∈
      calculateValidMoves ⟨.P, .white, 3, 3, 2, false⟩
        (fun x y z => if x = 4 ∧ y = 4 ∧ z = 3
          then some ⟨.N, .black, 4, 4, 3, false⟩ else none)) ∧
    (∃ q, pieceAt (fun x y z => if x = 4 ∧ y = 4 ∧ z = 3
          then some ⟨.N, .black, 4, 4, 3, false⟩ else none) 4 4 3 = some q ∧
      q.color ≠ Color.white) := by
  have h := spec_C3 ⟨.P, .white, 3, 3, 2, false⟩
    (fun x y z => if x = 4 ∧ y = 4 ∧ z = 3
      then some ⟨.N, .black, 4, 4, 3, false⟩ else none) rfl 1 1
    (Or.inr (Or.inr rfl)) (Or.inr (Or.inr rfl)) (by decide)
  have hmem := h.1.mpr (by decide)
  exact ⟨hmem, h.2 _ hmem rfl⟩

/-- C1: for every Rook, Bishop, Queen or King and every board, a move is
generated iff it lies at some step `k ∈ [1, maxDistance]` along one of the
piece's ray directions, every earlier step of that ray was an in-bounds
empty square (so a sliding move of distance `k > 1` never jumps an
occupied or out-of-bounds square), the target is in bounds, and the
capture flag matches the target's occupancy: an empty square gives a
non-capture, an opposing piece a capture, and an own piece or the boundary
yields no move at that step.  The King's `maxDistance` is 1 (first
conjunct), so it walks at most one step per ray. -/
theorem spec_C1 (piece : Piece) (bs : BoardState)
    (ht : piece.type = .R ∨ piece.type = .B ∨ piece.type = .Q ∨ piece.type = .K)
    (m : Move) :
    maxDistance .K = 1 ∧
    (m ∈ calculateValidMoves piece bs ↔
      ∃ d ∈ rayDirections piece.type, ∃ k : Nat,
        1 ≤ k ∧ k ≤ maxDistance piece.type ∧
        m.x = piece.x + d.1 * (k : Int) ∧ m.y = piece.y + d.2.1 * (k : Int) ∧
        m.z = piece.z + d.2.2 * (k : Int) ∧ m.castle = none ∧
        isWithinBounds m.x m.y m.z ∧
        (∀ j : Nat, 1 ≤ j → j < k →
          isWithinBounds (piece.x + d.1 * (j : Int)) (piece.y + d.2.1 * (j : Int))
            (piece.z + d.2.2 * (j : Int)) ∧
          pieceAt bs (piece.x + d.1 * (j : Int)) (piece.y + d.2.1 * (j : Int))
            (piece.z + d.2.2 * (j : Int)) = none) ∧
        ((pieceAt bs m.x m.y m.z = none ∧ m.capture = false) ∨
         (∃ q, pieceAt bs m.x m.y m.z = some q ∧ q.color ≠ piece.color ∧
           m.capture = true))) := by
  refine ⟨rfl, ?_⟩
  obtain ⟨t, c, px, py, pz, hmv⟩ := piece
  rcases ht with rfl | rfl | rfl | rfl <;>
    exact sliderMoves_mem_iff ⟨_, c, px, py, pz, hmv⟩ bs m

/-- Witness for C1, instantiated at the spec §8 scenario: the white rook
at (3,3,3) facing the black pawn at (3,3,6) generates the capture at
(3,3,6), so that move has a ray provenance with empty intermediate cells. -/
theorem spec_C1_witness :
    ∃ d ∈ rayDirections PieceType.R, ∃ k : Nat,
      1 ≤ k ∧ k ≤ maxDistance PieceType.R ∧
      (3 : Int) = 3 + d.1 * (k : Int) ∧ (3 : Int) = 3 + d.2.1 * (k : Int) ∧
      (6 : Int) = 3 + d.2.2 * (k : Int) ∧ (none : Option CastleSide) = none ∧
      isWithinBounds 3 3 6 ∧
      (∀ j : Nat, 1 ≤ j → j < k →
        isWithinBounds (3 + d.1 * (j : Int)) (3 + d.2.1 * (j : Int))
          (3 + d.2.2 * (j : Int)) ∧
        pieceAt witnessRookBoard (3 + d.1 * (j : Int)) (3 + d.2.1 * (j : Int))
          (3 + d.2.2 * (j : Int)) = none) ∧
      ((pieceAt witnessRookBoard 3 3 6 = none ∧ true = false) ∨
       (∃ q, pieceAt witnessRookBoard 3 3 6 = some q ∧ q.color ≠ Color.white ∧
         true = true)) :=
  (spec_C1 ⟨.R, .white, 3, 3, 3, false⟩ witnessRookBoard (Or.inl rfl)
    ⟨3, 3, 6, true, none⟩).2.mp (by decide)

/-- C9: for every piece of every role and every board, every generated
move has all three coordinates within `[0, SIZE)` (SIZE = 8), so indexing
the board at a generated move target never leaves the board. -/
theorem spec_C9 (piece : Piece) (bs : BoardState) (m : Move)
    (hm : m ∈ calculateValidMoves piece bs) : isWithinBounds m.x m.y m.z := by
  obtain ⟨t, c, px, py, pz, hmv⟩ := piece
  cases t with
  | P =>
    replace hm : m ∈ pawnMoves ⟨.P, c, px, py, pz, hmv⟩ bs := hm
    rcases List.mem_append.mp hm with h | h
    · exact pawnForward_bounds h
    · rcases mem_pawnDiags.mp h with ⟨dx, dy, -, hb, -, rfl⟩
      exact hb
  | N =>
    replace hm : m ∈ knightMoves ⟨.N, c, px, py, pz, hmv⟩ bs := hm
    exact (knightMoves_shape hm).1
  | R =>
    rcases (sliderMoves_mem_iff ⟨.R, c, px, py, pz, hmv⟩ bs m).mp hm with
      ⟨d, -, k, -, -, -, -, -, -, hb, -⟩
    exact hb
  | B =>
    rcases (sliderMoves_mem_iff ⟨.B, c, px, py, pz, hmv⟩ bs m).mp hm with
      ⟨d, -, k, -, -, -, -, -, -, hb, -⟩
    exact hb
  | Q =>
    rcases (sliderMoves_mem_iff ⟨.Q, c, px, py, pz, hmv⟩ bs m).mp hm with
      ⟨d, -, k, -, -, -, -, -, -, hb, -⟩
    exact hb
  | K =>
    rcases (sliderMoves_mem_iff ⟨.K, c, px, py, pz, hmv⟩ bs m).mp hm with
      ⟨d, -, k, -, -, -, -, -, -, hb, -⟩
    exact hb

/-- Witness for C9: the initial-board pawn single step lands in bounds. -/
theorem spec_C9_witness : isWithinBounds 0 1 2 :=
  spec_C9 ⟨.P, .white, 0, 1, 1, false⟩ initializeBoardState
    ⟨0, 1, 2, false, none⟩ (by decide)

/-- C10: no move returned by `calculateValidMoves` carries a castle tag;
consequently, applying any generated (non-promoting) move runs the plain
relocation branch of `executeMove` — the castle rook-relocation branch is
unreachable through generated moves (second conjunct: with
`move.castle = none` the new board is origin-cleared, target-written). -/
theorem spec_C10 :
    (∀ (piece : Piece) (bs : BoardState) (m : Move),
      m ∈ calculateValidMoves piece bs → m.castle = none) ∧
    (∀ (s : GameSession) (piece : Piece) (tX tY tZ : Int) (mv : Move),
      mv.castle = none → ¬(piece.type = .P ∧ tZ = promotionRank piece.color) →
      (executeMove s piece tX tY tZ mv).board =
        setCell (setCell s.board piece.x piece.y piece.z none) tX tY tZ
          (some { piece with x := tX, y := tY, z := tZ, hasMoved := true })) := by
  constructor
  · intro piece bs m hm
    obtain ⟨t, c, px, py, pz, hmv⟩ := piece
    cases t with
    | P =>
      replace hm : m ∈ pawnMoves ⟨.P, c, px, py, pz, hmv⟩ bs := hm
      rcases List.mem_append.mp hm with h | h
      · exact pawnForward_castle h
      · rcases mem_pawnDiags.mp h with ⟨dx, dy, -, -, -, rfl⟩
        rfl
    | N =>
      replace hm : m ∈ knightMoves ⟨.N, c, px, py, pz, hmv⟩ bs := hm
      exact (knightMoves_shape hm).2
    | R =>
      rcases (sliderMoves_mem_iff ⟨.R, c, px, py, pz, hmv⟩ bs m).mp hm with
        ⟨d, -, k, -, -, -, -, -, hcast, -⟩
      exact hcast
    | B =>
      rcases (sliderMoves_mem_iff ⟨.B, c, px, py, pz, hmv⟩ bs m).mp hm with
        ⟨d, -, k, -, -, -, -, -, hcast, -⟩
      exact hcast
    | Q =>
      rcases (sliderMoves_mem_iff ⟨.Q, c, px, py, pz, hmv⟩ bs m).mp hm with
        ⟨d, -, k, -, -, -, -, -, hcast, -⟩
      exact hcast
    | K =>
      rcases (sliderMoves_mem_iff ⟨.K, c, px, py, pz, hmv⟩ bs m).mp hm with
        ⟨d, -, k, -, -, -, -, -, hcast, -⟩
      exact hcast
  · exact executeMove_noncastle_board

/-- Witness for C10: the generated rook capture of the C1 scenario has no
castle tag, and executing it from a minimal session rewrites exactly the
origin and target cells. -/
theorem spec_C10_witness :
    (Move.mk 3 3 6 true none).castle = none ∧
    (executeMove
        { board := witnessRookBoard, turn := .white, selected := none,
          validMoves := [], capturedWhite := [], capturedBlack := [],
          gameStatus := "active", promotionData := none }
        ⟨.R, .white, 3, 3, 3, false⟩ 3 3 6 ⟨3, 3, 6, true, none⟩).board =
      setCell (setCell witnessRookBoard 3 3 3 none) 3 3 6
        (some ⟨.R, .white, 3, 3, 6, true⟩) :=
  ⟨spec_C10.1 ⟨.R, .white, 3, 3, 3, false⟩ witnessRookBoard
      ⟨3, 3, 6, true, none⟩ (by decide),
   spec_C10.2
      { board := witnessRookBoard, turn := .white, selected := none,
        validMoves := [], capturedWhite := [], capturedBlack := [],
        gameStatus := "active", promotionData := none }
      ⟨.R, .white, 3, 3, 3, false⟩ 3 3 6 ⟨3, 3, 6, true, none⟩ rfl (by decide)⟩

/-- C5: applying a (non-promoting, untagged) move whose destination holds
a King sets the game status to the mover's win string — a terminal value,
distinct from `"active"` — and the destination thereafter holds the moved
piece, the captured King having been removed; and once the status is not
`"active"`, every square click is rejected and returns the session
unchanged (board, turn and selection included). -/
theorem spec_C5 :
    (∀ (s : GameSession) (piece : Piece) (tX tY tZ : Int) (mv : Move) (q : Piece),
      mv.castle = none →
      ¬(piece.type = .P ∧ tZ = promotionRank piece.color) →
      pieceAt s.board tX tY tZ = some q → q.type = .K →
      (executeMove s piece tX tY tZ mv).gameStatus = winString piece.color ∧
      (executeMove s piece tX tY tZ mv).gameStatus ≠ "active" ∧
      pieceAt (executeMove s piece tX tY tZ mv).board tX tY tZ =
        some { piece with x := tX, y := tY, z := tZ, hasMoved := true }) ∧
    (∀ (s : GameSession) (x y z : Int),
      s.gameStatus ≠ "active" → handleSquareClick s x y z = s) := by
  constructor
  · intro s piece tX tY tZ mv q hcast hpromo hq hK
    refine ⟨executeMove_kingCapture_status s piece tX tY tZ mv q hpromo hq hK, ?_, ?_⟩
    · rw [executeMove_kingCapture_status s piece tX tY tZ mv q hpromo hq hK]
      exact winString_ne_active piece.color
    · rw [executeMove_noncastle_board s piece tX tY tZ mv hcast hpromo]
      exact pieceAt_setCell_same _ _ _ _ _
  · intro s x y z hs
    unfold handleSquareClick
    rw [if_pos (Or.inl hs)]

/-- Witness for C5: capturing the black king at (0,0,4) yields the
terminal status `"WHITE WINS!"`, the rook replaces the king, and a click
on a terminal session is a no-op. -/
theorem spec_C5_witness :
    ((executeMove witnessKingSession ⟨.R, .white, 0, 0, 0, false⟩ 0 0 4
        ⟨0, 0, 4, true, none⟩).gameStatus = winString .white ∧
     (executeMove witnessKingSession ⟨.R, .white, 0, 0, 0, false⟩ 0 0 4
        ⟨0, 0, 4, true, none⟩).gameStatus ≠ "active" ∧
     pieceAt (executeMove witnessKingSession ⟨.R, .white, 0, 0, 0, false⟩ 0 0 4
        ⟨0, 0, 4, true, none⟩).board 0 0 4 = some ⟨.R, .white, 0, 0, 4, true⟩) ∧
    handleSquareClick { witnessKingSession with gameStatus := "WHITE WINS!" } 0 0 0 =
      { witnessKingSession with gameStatus := "WHITE WINS!" } :=
  ⟨spec_C5.1 witnessKingSession ⟨.R, .white, 0, 0, 0, false⟩ 0 0 4
      ⟨0, 0, 4, true, none⟩ ⟨.K, .black, 0, 0, 4, false⟩ rfl (by decide)
      (by decide) rfl,
   spec_C5.2 { witnessKingSession with gameStatus := "WHITE WINS!" } 0 0 0
      (by decide)⟩

/-- C6: a pawn move into its side's far rank (`z = 7` for White, `z = 0`
for Black) makes `executeMove` halt before any board mutation — the whole
session is returned unchanged except for the recorded promotion-pending
data — so board, turn and capture tallies are untouched; the test is the
first thing `executeMove` does, before capture and castle handling. -/
theorem spec_C6 (s : GameSession) (piece : Piece) (tX tY tZ : Int) (mv : Move)
    (hP : piece.type = .P) (hz : tZ = promotionRank piece.color) :
    executeMove s piece tX tY tZ mv =
      { s with promotionData := some ⟨piece, tX, tY, tZ⟩ } ∧
    (executeMove s piece tX tY tZ mv).board = s.board ∧
    (executeMove s piece tX tY tZ mv).turn = s.turn ∧
    (executeMove s piece tX tY tZ mv).capturedWhite = s.capturedWhite ∧
    (executeMove s piece tX tY tZ mv).capturedBlack = s.capturedBlack ∧
    (executeMove s piece tX tY tZ mv).gameStatus = s.gameStatus ∧
    (executeMove s piece tX tY tZ mv).promotionData = some ⟨piece, tX, tY, tZ⟩ := by
  have h : executeMove s piece tX tY tZ mv =
      { s with promotionData := some ⟨piece, tX, tY, tZ⟩ } := by
    unfold executeMove
    rw [if_pos ⟨hP, hz⟩]
  exact ⟨h, by rw [h], by rw [h], by rw [h], by rw [h], by rw [h], by rw [h]⟩

/-- Witness for C6: moving the white pawn from (0,0,6) to (0,0,7) only
records the pending promotion. -/
theorem spec_C6_witness :
    executeMove witnessPawnSession ⟨.P, .white, 0, 0, 6, false⟩ 0 0 7
        ⟨0, 0, 7, false, none⟩ =
      { witnessPawnSession with
        promotionData := some ⟨⟨.P, .white, 0, 0, 6, false⟩, 0, 0, 7⟩ } :=
  (spec_C6 witnessPawnSession ⟨.P, .white, 0, 0, 6, false⟩ 0 0 7
      ⟨0, 0, 7, false, none⟩ rfl rfl).1

/-- Counterexample to C7 as stated: invoking `handlePromotion` with role
King is not rejected — it mutates the board, placing a white King at the
pending destination (0,0,7), which previously was empty. -/
theorem spec_C7_counterexample :
    pieceAt (handlePromotion witnessPromoSession .K).board 0 0 7 =
      some ⟨.K, .white, 0, 0, 7, true⟩ ∧
    pieceAt witnessPromoSession.board 0 0 7 = none ∧
    (handlePromotion witnessPromoSession .K).board ≠ witnessPromoSession.board := by
  refine ⟨by decide, by decide, fun h => ?_⟩
  have h7 := congrFun (congrFun (congrFun h 0) 0) 7
  simp only [handlePromotion, witnessPromoSession, witnessPawnSession,
    setCell, pieceAt] at h7
  exact absurd h7 (by decide)

/-- C7 amended: `handlePromotion` performs no validation of the chosen
role — invoking it with any role, King and Pawn included, removes the
pawn from its origin and places a piece of that role at the pending
destination with `hasMoved = true`, flips the turn and clears the pending
promotion.  The restriction to {Rook, Knight, Bishop, Queen} exists only
in the choices the promotion modal offers, not in the completion
operation, and no `InvalidPromotionRole` error exists in the code. -/
theorem spec_C7_amended (s : GameSession) (pd : PromotionData) (role : PieceType)
    (hpd : s.promotionData = some pd) :
    pieceAt (handlePromotion s role).board pd.x pd.y pd.z =
      some ⟨role, pd.piece.color, pd.x, pd.y, pd.z, true⟩ ∧
    (handlePromotion s role).promotionData = none ∧
    (handlePromotion s role).turn = oppColor s.turn := by
  unfold handlePromotion
  rw [hpd]
  dsimp only
  exact ⟨pieceAt_setCell_same _ _ _ _ _, rfl, rfl⟩

/-- Witness for the amended C7: promoting to Knight places a white Knight
at (0,0,7), clears the pending promotion and flips the turn. -/
theorem spec_C7_witness :
    pieceAt (handlePromotion witnessPromoSession .N).board 0 0 7 =
      some ⟨.N, .white, 0, 0, 7, true⟩ ∧
    (handlePromotion witnessPromoSession .N).promotionData = none ∧
    (handlePromotion witnessPromoSession .N).turn = oppColor .white :=
  spec_C7_amended witnessPromoSession ⟨⟨.P, .white, 0, 0, 6, false⟩, 0, 0, 7⟩
    .N rfl

/-! ## Helper lemmas: the coherence invariant (C8) -/

theorem coherent_setCell {bs : BoardState} {x y z : Int} {v : Option Piece}
    (h : BoardCoherent bs)
    (hv : ∀ p, v = some p → p.x = x ∧ p.y = y ∧ p.z = z) :
    BoardCoherent (setCell bs x y z v) := by
  intro a b c p hp
  unfold pieceAt setCell at hp
  by_cases hc : a = x ∧ b = y ∧ c = z
  · rw [if_pos hc] at hp
    obtain ⟨h1, h2, h3⟩ := hv p hp
    exact ⟨h1.trans hc.1.symm, h2.trans hc.2.1.symm, h3.trans hc.2.2.symm⟩
  · rw [if_neg hc] at hp
    exact h a b c p hp

theorem initializeBoardState_coherent : BoardCoherent initializeBoardState := by
  intro x y z p hp
  unfold pieceAt initializeBoardState at hp
  by_cases hb : isWithinBounds x y z
  · rw [if_pos hb] at hp
    cases hpat : layerPattern z with
    | none => rw [hpat] at hp; cases hp
    | some pat =>
      rw [hpat] at hp
      dsimp only at hp
      by_cases hc : (pat.getD y.toNat "").toList.getD x.toNat ' ' = ' '
      · rw [if_pos hc] at hp; cases hp
      · rw [if_neg hc] at hp
        rw [← Option.some_inj.mp hp]
        exact ⟨rfl, rfl, rfl⟩
  · rw [if_neg hb] at hp; cases hp

theorem executeMove_coherent (s : GameSession) (piece : Piece)
    (tX tY tZ : Int) (mv : Move) (h : BoardCoherent s.board) :
    BoardCoherent (executeMove s piece tX tY tZ mv).board := by
  unfold executeMove
  by_cases hpromo : piece.type = .P ∧ tZ = promotionRank piece.color
  · rw [if_pos hpromo]
    exact h
  · rw [if_neg hpromo]
    dsimp only
    have h1 : BoardCoherent (setCell s.board piece.x piece.y piece.z none) :=
      coherent_setCell h (fun p hp => by cases hp)
    cases hcs : mv.castle with
    | none =>
      dsimp only
      refine coherent_setCell h1 (fun p hp => ?_)
      rw [← Option.some_inj.mp hp]
      exact ⟨rfl, rfl, rfl⟩
    | some side =>
      dsimp only
      have hk : BoardCoherent (setCell (setCell s.board piece.x piece.y piece.z none)
          tX tY tZ (some { piece with x := tX, y := tY, z := tZ, hasMoved := true })) := by
        refine coherent_setCell h1 (fun p hp => ?_)
        rw [← Option.some_inj.mp hp]
        exact ⟨rfl, rfl, rfl⟩
      cases side with
      | king =>
        cases hr : pieceAt (setCell (setCell s.board piece.x piece.y piece.z none)
            tX tY tZ (some { piece with x := tX, y := tY, z := tZ, hasMoved := true }))
            7 tY tZ with
        | none => exact hk
        | some rook =>
          obtain ⟨-, hry, hrz⟩ := hk 7 tY tZ rook hr
          refine coherent_setCell (coherent_setCell hk (fun p hp => by cases hp))
            (fun p hp => ?_)
          rw [← Option.some_inj.mp hp]
          exact ⟨rfl, hry, hrz⟩
      | queen =>
        cases hr : pieceAt (setCell (setCell s.board piece.x piece.y piece.z none)
            tX tY tZ (some { piece with x := tX, y := tY, z := tZ, hasMoved := true }))
            0 tY tZ with
        | none => exact hk
        | some rook =>
          obtain ⟨-, hry, hrz⟩ := hk 0 tY tZ rook hr
          refine coherent_setCell (coherent_setCell hk (fun p hp => by cases hp))
            (fun p hp => ?_)
          rw [← Option.some_inj.mp hp]
          exact ⟨rfl, hry, hrz⟩

theorem handlePromotion_coherent (s : GameSession) (role : PieceType)
    (h : BoardCoherent s.board) :
    BoardCoherent (handlePromotion s role).board := by
  unfold handlePromotion
  cases hpd : s.promotionData with
  | none => exact h
  | some pd =>
    dsimp only
    refine coherent_setCell (coherent_setCell h (fun p hp => by cases hp))
      (fun p hp => ?_)
    rw [← Option.some_inj.mp hp]
    exact ⟨rfl, rfl, rfl⟩

theorem handleSquareClick_coherent (s : GameSession) (x y z : Int)
    (h : BoardCoherent s.board) :
    BoardCoherent (handleSquareClick s x y z).board := by
  unfold handleSquareClick
  by_cases hgate : s.gameStatus ≠ "active" ∨ s.promotionData.isSome
  · rw [if_pos hgate]
    exact h
  · rw [if_neg hgate]
    dsimp only
    cases s.selected with
    | some sel =>
      dsimp only
      cases s.validMoves.find? (fun m => m.x = x ∧ m.y = y ∧ m.z = z) with
      | some mv => exact executeMove_coherent s sel x y z mv h
      | none =>
        dsimp only
        cases pieceAt s.board x y z with
        | some p =>
          dsimp only
          by_cases hturn : p.color = s.turn
          · rw [if_pos hturn]; exact h
          · rw [if_neg hturn]; exact h
        | none => exact h
    | none =>
      dsimp only
      cases pieceAt s.board x y z with
      | some p =>
        dsimp only
        by_cases hturn : p.color = s.turn
        · rw [if_pos hturn]; exact h
        · rw [if_neg hturn]; exact h
      | none => exact h

/-- C8: every session reachable from the initial one through square
clicks and promotion completions has a board where each cell holds at
most one piece (the cell is empty or holds a unique occupant — immediate
from the one-slot-per-cell representation, as in the source's 3D array)
and every piece's stored coordinates equal the coordinates of the cell it
occupies, through the normal, castle-rook and promotion write paths. -/
theorem spec_C8 (s : GameSession) (hs : Reachable s) :
    (∀ x y z : Int, pieceAt s.board x y z = none ∨
      ∃! p, pieceAt s.board x y z = some p) ∧
    BoardCoherent s.board := by
  refine ⟨fun x y z => ?_, ?_⟩
  · cases hp : pieceAt s.board x y z with
    | none => exact Or.inl rfl
    | some p => exact Or.inr ⟨p, rfl, fun q hq => Option.some_inj.mp hq.symm⟩
  · induction hs with
    | init => exact initializeBoardState_coherent
    | click x y z hb hr ih => exact handleSquareClick_coherent _ x y z ih
    | promote role hr ih => exact handlePromotion_coherent _ role ih

/-- Witness for C8 at the initial session. -/
theorem spec_C8_witness :
    (∀ x y z : Int, pieceAt initialSession.board x y z = none ∨
      ∃! p, pieceAt initialSession.board x y z = some p) ∧
    BoardCoherent initialSession.board :=
  spec_C8 initialSession Reachable.init

end Chess3D
